import Mathlib

/-!
Verification of the MAG7 intel lakehouse research-engine pages against their
natural-language specification.  Each Python helper that a claim touches is
shallowly embedded as an executable Lean definition (pandas series become
`List (Option ℚ)`, nulls become `none`, numeric columns become `ℚ`), and the
claims are settled as theorems over those definitions.
-/

set_option autoImplicit false

namespace Mag7

/-! CurveSimulator: `build_equity_curve` (pages/8_Research_Playground.py)

A dataframe row carries the `core_signal_state` column and the selected
forward-return column `ret_col`; the return may be null. -/

/-- Row of the events dataframe handed to `build_equity_curve`. -/
structure EventRow where
  core_signal_state : String
  fwd_ret : Option ℚ
deriving DecidableEq

/-- Embedding of `pd.to_numeric(tmp[ret_col], errors="coerce").fillna(0.0)`
applied to one cell: a null forward return becomes `0`. -/
def fillna0 (x : Option ℚ) : ℚ := x.getD 0

/-- Embedding of the `long_setup_no_overlap` loop of `build_equity_curve`
(lines 100-123): walks the rows with a `cooldown` counter, emitting the
`(is_trade, step)` pair for each row.  A positive cooldown blocks the row
(flag 0, step 1) and decrements; otherwise a `"LONG_SETUP"` row opens a
position (flag 1, step `1 + r`) and sets `cooldown = horizon`; any other row
emits (0, 1) with cooldown left at 0. -/
def noOverlapLoop (horizon : Nat) : Nat → List EventRow → List (Nat × ℚ)
  | _, [] => []
  | cooldown, row :: rest =>
    if 0 < cooldown then
      (0, 1) :: noOverlapLoop horizon (cooldown - 1) rest
    else if row.core_signal_state = "LONG_SETUP" then
      (1, 1 + fillna0 row.fwd_ret) :: noOverlapLoop horizon horizon rest
    else
      (0, 1) :: noOverlapLoop horizon 0 rest

/-- Embedding of `pandas.Series.cumprod` on the `step` column. -/
def cumprod (xs : List ℚ) : List ℚ := (xs.scanl (· * ·) 1).tail

/-- Output columns of `build_equity_curve`: `is_trade`, `step`, and
`equity = step.cumprod()`. -/
structure CurveResult where
  is_trade : List Nat
  step : List ℚ
  equity : List ℚ
deriving DecidableEq

/-- Result of the `mode == "long_setup_no_overlap"` branch. -/
def curveNoOverlap (df : List EventRow) (horizon : Nat) : CurveResult :=
  let out := noOverlapLoop horizon 0 df
  ⟨out.map Prod.fst, out.map Prod.snd, cumprod (out.map Prod.snd)⟩

/-- Embedding of `build_equity_curve(df, ret_col, mode, horizon)`
(pages/8_Research_Playground.py lines 79-129).  The `ret_col` projection and
the null fill of line 90 are represented by the `fwd_ret : Option ℚ` field
together with `fillna0`; an unknown mode raises `ValueError`, embedded as
`none`. -/
def build_equity_curve (df : List EventRow) (mode : String) (horizon : Nat) :
    Option CurveResult :=
  match mode with
  | "all_days" =>
    let step := df.map fun r => 1 + fillna0 r.fwd_ret
    some ⟨df.map fun _ => 1, step, cumprod step⟩
  | "long_setup_only" =>
    let step := df.map fun r =>
      1 + fillna0 r.fwd_ret * (if r.core_signal_state = "LONG_SETUP" then 1 else 0)
    some ⟨df.map fun r => if r.core_signal_state = "LONG_SETUP" then 1 else 0,
      step, cumprod step⟩
  | "long_setup_no_overlap" => some (curveNoOverlap df horizon)
  | _ => none

theorem build_equity_curve_no_overlap_eq (df : List EventRow) (horizon : Nat) :
    build_equity_curve df "long_setup_no_overlap" horizon =
      some (curveNoOverlap df horizon) := rfl

/-- Helper: rows emitted while the cooldown is positive cannot be trades, so a
trade's index is at least the initial cooldown. -/
theorem noOverlapLoop_trade_index_ge (H : Nat) (rows : List EventRow) :
    ∀ (c i : Nat) (p : Nat × ℚ),
      (noOverlapLoop H c rows).get? i = some p → p.1 = 1 → c ≤ i := by
  induction rows with
  | nil =>
    intro c i p hp _
    simp [noOverlapLoop] at hp
  | cons row rest ih =>
    intro c i p hp h1
    by_cases hc : 0 < c
    · rw [noOverlapLoop, if_pos hc] at hp
      cases i with
      | zero =>
        simp at hp
        rw [← hp] at h1
        simp at h1
      | succ i' =>
        simp only [List.get?_cons_succ] at hp
        have := ih (c - 1) i' p hp h1
        omega
    · omega

/-- Helper: in the `long_setup_no_overlap` loop, two trade rows are always
more than `H` rows apart (the later index exceeds the earlier by at least
`H + 1`), for any initial cooldown. -/
theorem noOverlapLoop_trade_gap (H : Nat) (rows : List EventRow) :
    ∀ (c i j : Nat) (p q : Nat × ℚ), i < j →
      (noOverlapLoop H c rows).get? i = some p → p.1 = 1 →
      (noOverlapLoop H c rows).get? j = some q → q.1 = 1 →
      H + 1 ≤ j - i := by
  induction rows with
  | nil =>
    intro c i j p q _ hp _ _ _
    simp [noOverlapLoop] at hp
  | cons row rest ih =>
    intro c i j p q hij hpi hp1 hqj hq1
    by_cases hc : 0 < c
    · rw [noOverlapLoop, if_pos hc] at hpi hqj
      cases i with
      | zero =>
        simp at hpi
        rw [← hpi] at hp1
        simp at hp1
      | succ i' =>
        cases j with
        | zero => omega
        | succ j' =>
          simp only [List.get?_cons_succ] at hpi hqj
          have := ih (c - 1) i' j' p q (by omega) hpi hp1 hqj hq1
          omega
    · have hc0 : c = 0 := by omega
      subst hc0
      rw [noOverlapLoop, if_neg (by omega)] at hpi hqj
      by_cases hs : row.core_signal_state = "LONG_SETUP"
      · rw [if_pos hs] at hpi hqj
        cases i with
        | zero =>
          cases j with
          | zero => omega
          | succ j' =>
            simp only [List.get?_cons_succ] at hqj
            have := noOverlapLoop_trade_index_ge H rest H j' q hqj hq1
            omega
        | succ i' =>
          cases j with
          | zero => omega
          | succ j' =>
            simp only [List.get?_cons_succ] at hpi hqj
            have := ih H i' j' p q (by omega) hpi hp1 hqj hq1
            omega
      · rw [if_neg hs] at hpi hqj
        cases i with
        | zero =>
          simp at hpi
          rw [← hpi] at hp1
          simp at hp1
        | succ i' =>
          cases j with
          | zero => omega
          | succ j' =>
            simp only [List.get?_cons_succ] at hpi hqj
            have := ih 0 i' j' p q (by omega) hpi hp1 hqj hq1
            omega

/-- C1: in the `long_setup_no_overlap` curve mode, for every ticker series and
every horizon `H ≥ 1`, any two distinct rows that open a position
(`is_trade = 1`) are separated by more than `H` rows, so no two compounded
entries have trade-date deltas smaller than the horizon. -/
theorem no_overlap_trades_separated (df : List EventRow) (H : Nat)
    (hH : 1 ≤ H) (res : CurveResult)
    (hres : build_equity_curve df "long_setup_no_overlap" H = some res)
    (i j : Nat) (hij : i < j)
    (hi : res.is_trade.get? i = some 1) (hj : res.is_trade.get? j = some 1) :
    H < j - i := by
  rw [build_equity_curve_no_overlap_eq] at hres
  have hres' : res = curveNoOverlap df H := by
    exact (Option.some.injEq _ _).mp hres.symm
  subst hres'
  unfold curveNoOverlap at hi hj
  simp only [List.get?_map] at hi hj
  rcases hop : (noOverlapLoop H 0 df).get? i with _ | p
  · rw [hop] at hi; simp at hi
  · rcases hoq : (noOverlapLoop H 0 df).get? j with _ | q
    · rw [hoq] at hj; simp at hj
    · rw [hop] at hi
      rw [hoq] at hj
      simp at hi hj
      have := noOverlapLoop_trade_gap H df 0 i j p q hij hop hi hoq hj
      omega

/-- Witness for C1 at a concrete input: horizon 1, states
`[LONG_SETUP, X, LONG_SETUP]`, trades at rows 0 and 2, separation `2 > 1`. -/
theorem no_overlap_trades_separated_witness :
    (1 : Nat) < 2 - 0 :=
  no_overlap_trades_separated
    [⟨"LONG_SETUP", some 0⟩, ⟨"X", some 0⟩, ⟨"LONG_SETUP", some 0⟩]
    1 (by decide) _ rfl 0 2 (by decide) (by decide) (by decide)

/-- C6: no-overlap curve with horizon 3 on the five-row series whose states
are `[LONG_SETUP, LONG_SETUP, LONG_SETUP, NEUTRAL, LONG_SETUP]` and whose
returns are `[0.01, 0.01, 0.01, 0, 0.02]`: positions open exactly at index 0
(setting cooldown to 3) and index 4 (the cooldown having expired at index 3),
and the final equity is `1.01 * 1.02 = 5151/5000`, not `1.01^3 * 1.02`. -/
theorem no_overlap_example_horizon3 :
    build_equity_curve
      [⟨"LONG_SETUP", some (1/100)⟩, ⟨"LONG_SETUP", some (1/100)⟩,
       ⟨"LONG_SETUP", some (1/100)⟩, ⟨"NEUTRAL", some 0⟩,
       ⟨"LONG_SETUP", some (2/100)⟩] "long_setup_no_overlap" 3
      = some ⟨[1, 0, 0, 0, 1],
              [101/100, 1, 1, 1, 51/50],
              [101/100, 101/100, 101/100, 101/100, 5151/5000]⟩
    ∧ (101/100 : ℚ) * (102/100) = 5151/5000
    ∧ (5151/5000 : ℚ) ≠ (101/100)^3 * (102/100) := by
  refine ⟨?_, by norm_num, by norm_num⟩
  rw [build_equity_curve_no_overlap_eq]
  norm_num [curveNoOverlap, noOverlapLoop, cumprod, fillna0, List.scanl]

/-- Replacing the null forward return of a row by the literal `0` that
`fillna(0.0)` substitutes. -/
def fillRow (r : EventRow) : EventRow :=
  ⟨r.core_signal_state, some (fillna0 r.fwd_ret)⟩

theorem noOverlapLoop_map_fillRow (H : Nat) (rows : List EventRow) :
    ∀ c : Nat, noOverlapLoop H c (rows.map fillRow) = noOverlapLoop H c rows := by
  induction rows with
  | nil => intro c; rfl
  | cons row rest ih =>
    intro c
    simp only [List.map_cons, noOverlapLoop, fillRow, fillna0, Option.getD_some, ih]

/-- Helper: a trade row in the no-overlap loop is a `LONG_SETUP` row of the
input, and its step compounds that row's (null-filled) forward return. -/
theorem noOverlapLoop_trade_row (H : Nat) (rows : List EventRow) :
    ∀ (c i : Nat) (p : Nat × ℚ),
      (noOverlapLoop H c rows).get? i = some p → p.1 = 1 →
      ∃ r, rows.get? i = some r ∧ r.core_signal_state = "LONG_SETUP" ∧
        p.2 = 1 + fillna0 r.fwd_ret := by
  induction rows with
  | nil =>
    intro c i p hp _
    simp [noOverlapLoop] at hp
  | cons row rest ih =>
    intro c i p hp h1
    by_cases hc : 0 < c
    · rw [noOverlapLoop, if_pos hc] at hp
      cases i with
      | zero =>
        simp at hp
        rw [← hp] at h1
        simp at h1
      | succ i' =>
        simp only [List.get?_cons_succ] at hp ⊢
        exact ih (c - 1) i' p hp h1
    · have hc0 : c = 0 := by omega
      subst hc0
      rw [noOverlapLoop, if_neg (by omega)] at hp
      by_cases hs : row.core_signal_state = "LONG_SETUP"
      · rw [if_pos hs] at hp
        cases i with
        | zero =>
          simp at hp
          exact ⟨row, rfl, hs, by rw [← hp]⟩
        | succ i' =>
          simp only [List.get?_cons_succ] at hp ⊢
          exact ih H i' p hp h1
      · rw [if_neg hs] at hp
        cases i with
        | zero =>
          simp at hp
          rw [← hp] at h1
          simp at h1
        | succ i' =>
          simp only [List.get?_cons_succ] at hp ⊢
          exact ih 0 i' p hp h1

/-- C10: `build_equity_curve` treats a null forward return as a return of
exactly `0`.  First, null-filling the return column with `0` before the call
changes nothing in any of the three modes.  Second, at a null-return row the
step is `1` in `all_days` and `long_setup_only` mode; and in
`long_setup_no_overlap` mode, when the row opens a position (`is_trade = 1`,
which requires the target state) its step is still `1` (multiplier `1 + 0`)
and the full horizon-length cooldown lockout follows: none of the next `H`
rows opens a position. -/
theorem null_return_treated_as_zero :
    (∀ (df : List EventRow) (H : Nat),
      build_equity_curve (df.map fillRow) "all_days" H =
        build_equity_curve df "all_days" H ∧
      build_equity_curve (df.map fillRow) "long_setup_only" H =
        build_equity_curve df "long_setup_only" H ∧
      build_equity_curve (df.map fillRow) "long_setup_no_overlap" H =
        build_equity_curve df "long_setup_no_overlap" H) ∧
    (∀ (df : List EventRow) (H i : Nat) (r : EventRow) (res : CurveResult),
      df.get? i = some r → r.fwd_ret = none →
      (build_equity_curve df "all_days" H = some res →
        res.step.get? i = some 1) ∧
      (build_equity_curve df "long_setup_only" H = some res →
        res.step.get? i = some 1) ∧
      (build_equity_curve df "long_setup_no_overlap" H = some res →
        res.is_trade.get? i = some 1 →
        res.step.get? i = some 1 ∧
        ∀ k, i < k → k ≤ i + H → res.is_trade.get? k ≠ some 1)) := by
  constructor
  · intro df H
    refine ⟨?_, ?_, ?_⟩
    · show some _ = some _
      simp [List.map_map, Function.comp_def, fillRow, fillna0]
    · show some _ = some _
      simp [List.map_map, Function.comp_def, fillRow, fillna0]
    · show some _ = some _
      simp [curveNoOverlap, noOverlapLoop_map_fillRow]
  · intro df H i r res hrow hnull
    refine ⟨?_, ?_, ?_⟩
    · intro hres
      have : res = ⟨df.map fun _ => 1, df.map fun r => 1 + fillna0 r.fwd_ret,
          cumprod (df.map fun r => 1 + fillna0 r.fwd_ret)⟩ :=
        (Option.some.injEq _ _).mp hres.symm
      subst this
      simp only [List.get?_map, hrow, Option.map_some', hnull, fillna0,
        Option.getD_none]
      norm_num
    · intro hres
      have : res = ⟨df.map fun r => if r.core_signal_state = "LONG_SETUP" then 1 else 0,
          df.map fun r =>
            1 + fillna0 r.fwd_ret * (if r.core_signal_state = "LONG_SETUP" then 1 else 0),
          cumprod (df.map fun r =>
            1 + fillna0 r.fwd_ret * (if r.core_signal_state = "LONG_SETUP" then 1 else 0))⟩ :=
        (Option.some.injEq _ _).mp hres.symm
      subst this
      simp only [List.get?_map, hrow, Option.map_some', hnull, fillna0,
        Option.getD_none]
      norm_num
    · intro hres htrade
      rw [build_equity_curve_no_overlap_eq] at hres
      have : res = curveNoOverlap df H := (Option.some.injEq _ _).mp hres.symm
      subst this
      unfold curveNoOverlap at htrade ⊢
      simp only [List.get?_map] at htrade
      rcases hop : (noOverlapLoop H 0 df).get? i with _ | p
      · rw [hop] at htrade; simp at htrade
      · rw [hop] at htrade
        simp at htrade
        obtain ⟨r', hr', _, hstep⟩ := noOverlapLoop_trade_row H df 0 i p hop htrade
        have hrr : r' = r := by
          rw [hrow] at hr'
          exact (Option.some.injEq _ _).mp hr'.symm
        subst hrr
        constructor
        · simp only [List.get?_map, hop, Option.map_some']
          rw [hstep, hnull]
          norm_num [fillna0]
        · intro k hik hkH hk
          simp only [List.get?_map] at hk
          rcases hoq : (noOverlapLoop H 0 df).get? k with _ | q
          · rw [hoq] at hk; simp at hk
          · rw [hoq] at hk
            simp at hk
            have := noOverlapLoop_trade_gap H df 0 i k p q hik hop htrade hoq hk
            omega

/-- Witness for C10: the second conjunct applied at a concrete one-row input
with a null return in `all_days` mode. -/
theorem null_return_treated_as_zero_witness :
    ([(1 : ℚ)] : List ℚ).get? 0 = some 1 :=
  (null_return_treated_as_zero.2 [⟨"LONG_SETUP", none⟩] 5 0 ⟨"LONG_SETUP", none⟩
    ⟨[1], [1], [1]⟩ rfl rfl).1
    (by norm_num [build_equity_curve, fillna0, cumprod, List.scanl])

/-! TransitionDetector: entry detection
(pages/2_Signal_by_Momentum_Reversion.py lines 86 and 97-98)

The page first fills null `signal_state` cells with `"NEU"` (line 86), then
marks `is_entry = (signal_state != signal_state.shift(1)) &
signal_state.isin(["MOM", "REV"])` (lines 97-98).  In pandas, the first row's
shifted predecessor is `NaN`, and `string != NaN` is `True`. -/

/-- Tradable S1 states: membership test `signal_state.isin(["MOM", "REV"])`. -/
def isTradableS1 (s : String) : Bool := s = "MOM" || s = "REV"

/-- Entry flags with the running previous state (`none` before the first
row): embeds `(signal_state != prev_state) & signal_state.isin(["MOM","REV"])`
row by row. -/
def entryFlagsAux (prev : Option String) : List String → List Bool
  | [] => []
  | s :: rest => (decide (prev ≠ some s) && isTradableS1 s) :: entryFlagsAux (some s) rest

/-- The `is_entry` column of line 98: the previous state of the first row is
the pandas `NaN` produced by `shift(1)`. -/
def is_entry (states : List String) : List Bool := entryFlagsAux none states

theorem entryFlagsAux_get? (states : List String) :
    ∀ (prev : Option String) (t : Nat),
      (entryFlagsAux prev states).get? t =
        (states.get? t).map fun s =>
          decide ((if t = 0 then prev else states.get? (t - 1)) ≠ some s) &&
            isTradableS1 s := by
  induction states with
  | nil => intro prev t; rfl
  | cons s0 rest ih =>
    intro prev t
    cases t with
    | zero => rfl
    | succ t' =>
      simp only [entryFlagsAux, List.get?_cons_succ, ih (some s0) t',
        Nat.succ_ne_zero, if_false, Nat.succ_sub_one]
      cases t' with
      | zero => rfl
      | succ t'' => rfl

/-- C2: a row is an entry iff its state differs from the immediately
preceding row's state and is tradable (`MOM` or `REV`); the first row is an
entry whenever its state is tradable.  On `[NEU,NEU,MOM,MOM,NEU,MOM]` the
entries are exactly indices 2 and 5. -/
theorem is_entry_spec :
    (∀ (states : List String) (t : Nat),
      (is_entry states).get? t = some true ↔
        ∃ s, states.get? t = some s ∧ (s = "MOM" ∨ s = "REV") ∧
          (t = 0 ∨ states.get? (t - 1) ≠ some s)) ∧
    is_entry ["NEU", "NEU", "MOM", "MOM", "NEU", "MOM"] =
      [false, false, true, false, false, true] := by
  refine ⟨?_, by decide⟩
  intro states t
  rw [is_entry, entryFlagsAux_get? states none t]
  rcases hs : states.get? t with _ | s
  · simp
  · simp only [Option.map_some', Option.some.injEq]
    constructor
    · intro h
      refine ⟨s, rfl, ?_, ?_⟩
      · have := (Bool.and_eq_true _ _).mp h |>.2
        simpa [isTradableS1, decide_eq_true_eq] using this
      · have := (Bool.and_eq_true _ _).mp h |>.1
        by_cases ht : t = 0
        · exact Or.inl ht
        · rw [if_neg ht] at this
          exact Or.inr (by simpa [decide_eq_true_eq] using this)
    · rintro ⟨s', hs', htrad, hprev⟩
      subst hs'
      refine (Bool.and_eq_true _ _).mpr ⟨?_, ?_⟩
      · by_cases ht : t = 0
        · subst ht
          simp
        · rw [if_neg ht]
          rcases hprev with h0 | hne
          · exact absurd h0 ht
          · simpa [decide_eq_true_eq] using hne
      · simp only [isTradableS1]
        rcases htrad with h | h <;> simp [h]

/-- Witness for C2: the general clause applied at the example series and
index 2 (`MOM` after `NEU` is an entry). -/
theorem is_entry_spec_witness :
    (is_entry ["NEU", "NEU", "MOM", "MOM", "NEU", "MOM"]).get? 2 = some true :=
  (is_entry_spec.1 ["NEU", "NEU", "MOM", "MOM", "NEU", "MOM"] 2).mpr
    ⟨"MOM", rfl, Or.inl rfl, Or.inr (by decide)⟩

/-! S1 page null-state handling
(pages/2_Signal_by_Momentum_Reversion.py line 86) -/

/-- Embedding of `hist["signal_state"] = hist["signal_state"].fillna("NEU")`
on one cell: a null signal state becomes `"NEU"`. -/
def fill_signal_state (s : Option String) : String := s.getD "NEU"

/-- State series the page works with: raw (possibly null) mart states after
the null fill of line 86. -/
def s1PageStates (raw : List (Option String)) : List String :=
  raw.map fill_signal_state

/-- C8 counterexample: a row whose signal-state input is null is classified
as `"NEU"`, not `"MISSING"`, contradicting the claim at the one-row input
`[null]`. -/
theorem null_state_not_missing_counterexample :
    s1PageStates [none] = ["NEU"] ∧ ("NEU" : String) ≠ "MISSING" := by
  exact ⟨rfl, by decide⟩

/-- C8 amended: every row whose signal-state input is null is classified as
`NEU` by the page's fill (never `MOM`, `REV`, or `MISSING`), so null-state
rows are counted as `NEU` days and can never become entries. -/
theorem null_state_becomes_neu (raw : List (Option String)) (t : Nat)
    (h : raw.get? t = some none) :
    (s1PageStates raw).get? t = some "NEU" ∧
      (s1PageStates raw).get? t ≠ some "MOM" ∧
      (s1PageStates raw).get? t ≠ some "REV" ∧
      (s1PageStates raw).get? t ≠ some "MISSING" ∧
      (is_entry (s1PageStates raw)).get? t = some false := by
  have hstate : (s1PageStates raw).get? t = some "NEU" := by
    simp only [s1PageStates, List.get?_map, h, Option.map_some', fill_signal_state,
      Option.getD_none]
  refine ⟨hstate, ?_, ?_, ?_, ?_⟩
  · rw [hstate]; intro hc; simpa using (Option.some.injEq _ _).mp hc
  · rw [hstate]; intro hc; simpa using (Option.some.injEq _ _).mp hc
  · rw [hstate]; intro hc; simpa using (Option.some.injEq _ _).mp hc
  · rw [is_entry, entryFlagsAux_get? (s1PageStates raw) none t, hstate]
    simp [isTradableS1]

/-- Witness for C8's amended theorem at the concrete input `[null]`. -/
theorem null_state_becomes_neu_witness :
    (s1PageStates [none]).get? 0 = some "NEU" :=
  (null_state_becomes_neu [none] 0 rfl).1

/-! EvidenceAggregator pooling: `wavg`
(pages/6_Research_Validation.py lines 201-202)

`def wavg(series, weights): return (series * weights).sum() / weights.sum()
if weights.sum() else None` — the elementwise product of the aligned series,
summed and divided by the weight sum; `None` when the weight sum is falsy
(zero). -/

/-- Embedding of `wavg` over aligned mean/weight columns. -/
def wavg (series weights : List ℚ) : Option ℚ :=
  if weights.sum ≠ 0 then
    some ((List.zipWith (· * ·) series weights).sum / weights.sum)
  else none

theorem zipWith_mul_map_fst_snd (groups : List (ℚ × ℚ)) :
    List.zipWith (· * ·) (groups.map Prod.fst) (groups.map Prod.snd) =
      groups.map fun g => g.1 * g.2 := by
  induction groups with
  | nil => rfl
  | cons g rest ih => simp [ih]

/-- C3: pooled EARLY/LATE statistics over per-ticker groups `(mean_i,
n_obs_i)` equal the n_obs-weighted average `Σ(mean_i * n_obs_i) / Σ(n_obs_i)`;
when `Σ(n_obs_i) = 0` the pooled statistic is null.  On the three-ticker
fixture `means [1, 2, 9]`, `n_obs [1, 1, 8]` this gives `75/10 = 15/2`, which
differs from the simple average `4`. -/
theorem pooled_mean_is_weighted_average :
    (∀ groups : List (ℚ × ℚ), (groups.map Prod.snd).sum ≠ 0 →
      wavg (groups.map Prod.fst) (groups.map Prod.snd) =
        some ((groups.map fun g => g.1 * g.2).sum / (groups.map Prod.snd).sum)) ∧
    (∀ groups : List (ℚ × ℚ), (groups.map Prod.snd).sum = 0 →
      wavg (groups.map Prod.fst) (groups.map Prod.snd) = none) ∧
    wavg [1, 2, 9] [1, 1, 8] = some (15/2) ∧
    (15/2 : ℚ) ≠ (1 + 2 + 9) / 3 := by
  refine ⟨?_, ?_, ?_, by norm_num⟩
  · intro groups h
    rw [wavg, if_pos h, zipWith_mul_map_fst_snd]
  · intro groups h
    rw [wavg, if_neg (by simp [h])]
  · norm_num [wavg, List.zipWith]

/-- Witness for C3: the weighted-average clause applied to the three-ticker
fixture `[(1,1), (2,1), (9,8)]`, whose weight sum `10` is nonzero. -/
theorem pooled_mean_is_weighted_average_witness :
    wavg ([((1:ℚ),(1:ℚ)), (2,1), (9,8)].map Prod.fst)
        ([((1:ℚ),(1:ℚ)), (2,1), (9,8)].map Prod.snd) =
      some (([((1:ℚ),(1:ℚ)), (2,1), (9,8)].map fun g => g.1 * g.2).sum /
        ([((1:ℚ),(1:ℚ)), (2,1), (9,8)].map Prod.snd).sum) :=
  pooled_mean_is_weighted_average.1 [(1, 1), (2, 1), (9, 8)] (by norm_num)

/-! LaggedCorrelationEngine: null thresholds
(pages/04_sentiment_vs_returns.py lines 123-144 and
pages/7_Sentiment_Research.py lines 132-137)

`compute_lagged_corr` shifts the sentiment column within one ticker group,
drops rows where either the shifted sentiment or the forward return is null,
and reports the correlation cell as `None` when fewer than 10 valid rows
remain (`if len(valid) < 10`).  The `corr` table of the sentiment-research
page instead uses `if len(g) > 10 else None` over groups that were already
restricted to valid rows via `view.dropna(...)` (line 121).  The embedded
cell carries the list of valid pairs handed to Pearson when non-null; the
floating-point correlation value itself is outside the claim, which is about
when the cell is null. -/

/-- Embedding of `pandas.Series.shift(lag)`: element `k` of the result is
element `k - lag` of the input when that index exists, else null.  Input
elements may themselves be null. -/
def shiftOpt (lag : ℤ) (xs : List (Option ℚ)) : List (Option ℚ) :=
  (List.range xs.length).map fun (k : Nat) =>
    if 0 ≤ (k : ℤ) - lag then (xs.get? ((k : ℤ) - lag).toNat).getD none
    else none

/-- Rows of `grp[["sentiment_lagged", return_col]].dropna()`: the pairs where
both the shifted sentiment and the forward return are non-null. -/
def validPairs (sent ret : List (Option ℚ)) (lag : ℤ) : List (ℚ × ℚ) :=
  (List.zip (shiftOpt lag sent) ret).filterMap fun p =>
    match p with
    | (some a, some b) => some (a, b)
    | _ => none

/-- Correlation cell of `compute_lagged_corr` for one ticker group:
null when fewer than 10 valid points, otherwise the (data handed to the)
computed correlation. -/
def compute_lagged_corr_cell (sent ret : List (Option ℚ)) (lag : ℤ) :
    Option (List (ℚ × ℚ)) :=
  if (validPairs sent ret lag).length < 10 then none
  else some (validPairs sent ret lag)

/-- Correlation cell of the sentiment-research page (line 134): the group
`g` already contains only valid points; the cell is computed only when
`len(g) > 10`, else null. -/
def corr7_cell (g : List (ℚ × ℚ)) : Option (List (ℚ × ℚ)) :=
  if 10 < g.length then some g else none

/-- C4 counterexample: a ticker group with exactly 10 valid overlapping
points is reported as null by the sentiment-research page's `corr`, although
the claim says a correlation is computed (never null) at 10 or more points. -/
theorem corr_ten_points_null_counterexample :
    corr7_cell (List.replicate 10 ((1 : ℚ), (1 : ℚ))) = none ∧
    (List.replicate 10 ((1 : ℚ), (1 : ℚ))).length = 10 := by
  constructor
  · rw [corr7_cell, if_neg (by simp)]
  · rfl

/-- C4 amended: `compute_lagged_corr` reports a group's correlation as null
iff the group has fewer than 10 valid overlapping points, as claimed; the
sentiment-research page's `corr`, however, reports null iff the group has 10
or fewer valid points (it computes only beyond 10). -/
theorem corr_null_iff_thresholds :
    (∀ (sent ret : List (Option ℚ)) (lag : ℤ),
      compute_lagged_corr_cell sent ret lag = none ↔
        (validPairs sent ret lag).length < 10) ∧
    (∀ g : List (ℚ × ℚ), corr7_cell g = none ↔ g.length ≤ 10) := by
  constructor
  · intro sent ret lag
    rw [compute_lagged_corr_cell]
    split <;> rename_i h
    · simpa using h
    · simp only [reduceCtorEq, false_iff]
      omega
  · intro g
    rw [corr7_cell]
    split <;> rename_i h
    · simp only [reduceCtorEq, false_iff]
      omega
    · simp only [true_iff]
      omega

/-! EvidenceAggregator summaries
(pages/8_Research_Playground.py lines 265-279 and
pages/2_Signal_by_Momentum_Reversion.py lines 273-293)

The playground `summary` aggregates per ticker group:
`n_obs = ("ret", "count")` — pandas `count` skips nulls — and
`win_rate = ("ret", lambda x: float((x > 0).mean()) if len(x) else np.nan)`;
in pandas `NaN > 0` is `False`, so the mean divides by the whole group
length, nulls included.  The mom/rev page's `_evidence_summary` reports
`n = len(sub)` (all rows of the state group) and, per horizon,
`win_rate_fwk = (fwk > 0).mean()` over `fwk = sub[col].dropna()`. -/

/-- Test `x > 0` on one cell of a pandas numeric series: null compares
`False`. -/
def isPosOpt (o : Option ℚ) : Bool :=
  match o with
  | some v => decide (0 < v)
  | none => false

/-- Playground `n_obs`: pandas `count`, the number of non-null returns. -/
def playground_n_obs (ret : List (Option ℚ)) : Nat := (ret.filterMap id).length

/-- Playground `win_rate`: `(x > 0).mean()` over the whole group (nulls in
the denominator), `NaN` (null) only for an empty group. -/
def playground_win_rate (ret : List (Option ℚ)) : Option ℚ :=
  if ret.length = 0 then none
  else some ((ret.countP isPosOpt : ℚ) / (ret.length : ℚ))

/-- Mom/rev `_evidence_summary` row count `n = len(sub)` for a state group,
viewed through one horizon column. -/
def momrev_n (vals : List (Option ℚ)) : Nat := vals.length

/-- Mom/rev `_evidence_summary` `win_rate_fwk`: mean of `fwk > 0` over the
column with nulls dropped, null when no non-null value exists. -/
def momrev_win_rate (vals : List (Option ℚ)) : Option ℚ :=
  if (vals.filterMap id).length = 0 then none
  else some (((vals.filterMap id).countP (fun v => decide (0 < v)) : ℚ) /
    ((vals.filterMap id).length : ℚ))

theorem countP_isPosOpt_eq_filterMap (ret : List (Option ℚ)) :
    ret.countP isPosOpt = (ret.filterMap id).countP fun v => decide (0 < v) := by
  induction ret with
  | nil => rfl
  | cons o rest ih =>
    cases o with
    | none => simpa [List.countP_cons, isPosOpt] using ih
    | some v => simp [List.countP_cons, isPosOpt, ih]

theorem filterMap_id_length_of_no_none (ret : List (Option ℚ))
    (h : ∀ o ∈ ret, o ≠ none) : (ret.filterMap id).length = ret.length := by
  induction ret with
  | nil => rfl
  | cons o rest ih =>
    cases o with
    | none => exact absurd rfl (h none (by simp))
    | some v =>
      have hstep : List.filterMap id (some v :: rest) = v :: List.filterMap id rest := rfl
      rw [hstep, List.length_cons, ih fun o ho => h o (by simp [ho])]
      rfl

/-- C5 counterexample: on the group `[0.5, null]` the playground summary
reports `n_obs = 1` but `win_rate = 1/2` (the null row counts in the
denominator), while the claimed `count(>0)/n_obs` is `1`; and the mom/rev
summary reports `n = 2`, not the count `1` of non-null forward returns. -/
theorem evidence_summary_null_counterexample :
    playground_n_obs [some (1/2 : ℚ), none] = 1 ∧
    playground_win_rate [some (1/2 : ℚ), none] = some (1/2) ∧
    (1/2 : ℚ) ≠ 1/1 ∧
    momrev_n [some (1/2 : ℚ), none] = 2 := by
  refine ⟨rfl, ?_, by norm_num, rfl⟩
  rw [playground_win_rate, if_neg (by simp)]
  norm_num [List.countP_cons, isPosOpt]

/-- C5 amended: the playground summary's `n_obs` is the count of non-null
forward returns, but its `win_rate` divides the count of positive returns by
the total number of rows in the group, nulls included; the mom/rev summary's
per-horizon `win_rate` is `count(>0)/n_obs` with nulls excluded from both
sides, as claimed, but its reported `n` is the total row count of the state
group.  When the group has no null forward return, both agree with the
claimed `win_rate = count(>0)/n_obs`. -/
theorem evidence_summary_win_rates (ret : List (Option ℚ)) :
    (ret ≠ [] →
      playground_win_rate ret =
        some (((ret.filterMap id).countP (fun v => decide (0 < v)) : ℚ) /
          (ret.length : ℚ))) ∧
    (ret.filterMap id ≠ [] →
      momrev_win_rate ret =
        some (((ret.filterMap id).countP (fun v => decide (0 < v)) : ℚ) /
          ((ret.filterMap id).length : ℚ))) ∧
    momrev_n ret = ret.length ∧
    playground_n_obs ret = (ret.filterMap id).length ∧
    ((∀ o ∈ ret, o ≠ none) → ret ≠ [] →
      playground_win_rate ret =
        some (((ret.filterMap id).countP (fun v => decide (0 < v)) : ℚ) /
          (playground_n_obs ret : ℚ)) ∧
      playground_win_rate ret = momrev_win_rate ret) := by
  refine ⟨?_, ?_, rfl, rfl, ?_⟩
  · intro hne
    rw [playground_win_rate, if_neg (by simpa using hne),
      countP_isPosOpt_eq_filterMap]
  · intro hne
    rw [momrev_win_rate, if_neg (by simpa using hne)]
  · intro hnone hne
    have hlen : (ret.filterMap id).length = ret.length :=
      filterMap_id_length_of_no_none ret hnone
    have h1 : playground_win_rate ret =
        some (((ret.filterMap id).countP (fun v => decide (0 < v)) : ℚ) /
          (playground_n_obs ret : ℚ)) := by
      rw [playground_win_rate, if_neg (by simpa using hne),
        countP_isPosOpt_eq_filterMap, playground_n_obs, hlen]
    refine ⟨h1, ?_⟩
    rw [h1, momrev_win_rate, if_neg (by simp [hlen, hne]),
      playground_n_obs, hlen]

/-- Witness for C5's amended theorem: the playground clause applied to the
concrete group `[0.5, null]`, which is non-empty. -/
theorem evidence_summary_win_rates_witness :
    playground_win_rate [some (1/2 : ℚ), none] =
      some (((([some (1/2 : ℚ), none] : List (Option ℚ)).filterMap id).countP
        (fun v => decide (0 < v)) : ℚ) /
        ((([some (1/2 : ℚ), none] : List (Option ℚ)).length : ℚ))) :=
  (evidence_summary_win_rates [some (1/2 : ℚ), none]).1 (by simp)

/-! LaggedCorrelationEngine: per-ticker shift
(pages/7_Sentiment_Research.py lines 106-107)

`view = view.sort_values(["ticker", "trade_date"])` followed by
`view["sentiment_lagged"] = view.groupby("ticker")["sentiment_score"].shift(lag)`:
pandas splits the column into per-ticker groups (preserving order), shifts
each group's series by `lag` positions, and realigns the results to the
original rows.  A row is represented as `(ticker, sentiment_score)`. -/

/-- Sentiment series of one ticker, in the table's (chronological) order. -/
def tickerSeries (rows : List (String × Option ℚ)) (tk : String) :
    List (Option ℚ) :=
  (rows.filter fun r => r.1 == tk).map Prod.snd

/-- Position of row `i` within its ticker's group: the number of earlier rows
of the same ticker. -/
def tickerRank (rows : List (String × Option ℚ)) (tk : String) (i : Nat) : Nat :=
  ((rows.take i).filter fun r => r.1 == tk).length

/-- Embedding of `groupby("ticker")[...].shift(lag)`: split by ticker, shift
each group with `shiftOpt`, recombine by original row position. -/
def groupShift (lag : ℤ) (rows : List (String × Option ℚ)) : List (Option ℚ) :=
  (List.range rows.length).map fun i =>
    match rows.get? i with
    | none => none
    | some (tk, _) =>
      ((shiftOpt lag (tickerSeries rows tk)).get? (tickerRank rows tk i)).getD none

theorem shiftOpt_get? (xs : List (Option ℚ)) (lag : ℤ) (k : Nat)
    (hk : k < xs.length) :
    (shiftOpt lag xs).get? k =
      some (if 0 ≤ (k : ℤ) - lag then (xs.get? ((k : ℤ) - lag).toNat).getD none
        else none) := by
  rw [shiftOpt, List.get?_map, List.get?_range hk, Option.map_some']

theorem tickerRank_lt (rows : List (String × Option ℚ)) :
    ∀ (i : Nat) (tk : String) (v : Option ℚ), rows.get? i = some (tk, v) →
      tickerRank rows tk i < (rows.filter fun r => r.1 == tk).length := by
  induction rows with
  | nil => intro i tk v h; simp at h
  | cons r rest ih =>
    intro i tk v h
    cases i with
    | zero =>
      simp only [List.get?_cons_zero, Option.some.injEq] at h
      subst h
      simp [tickerRank, List.filter_cons]
    | succ i' =>
      simp only [List.get?_cons_succ] at h
      have := ih i' tk v h
      simp only [tickerRank, List.take_succ_cons, List.filter_cons] at *
      by_cases hr : (r.1 == tk) = true
      · simp only [hr, if_pos] at *
        simpa using Nat.succ_lt_succ this
      · simp only [hr] at *
        simpa using this

/-- Helper: per-row characterization of the grouped shift used by C7. -/
theorem groupShift_get? (rows : List (String × Option ℚ)) (lag : ℤ) (i : Nat)
    (tk : String) (v : Option ℚ) (h : rows.get? i = some (tk, v)) :
    (groupShift lag rows).get? i =
      some (if 0 ≤ (tickerRank rows tk i : ℤ) - lag then
        ((tickerSeries rows tk).get?
          ((tickerRank rows tk i : ℤ) - lag).toNat).getD none
      else none) := by
  have hi : i < rows.length := by
    rcases List.get?_eq_some.mp h with ⟨hlt, _⟩
    exact hlt
  rw [groupShift, List.get?_map, List.get?_range hi, Option.map_some', h]
  have hrank : tickerRank rows tk i < (tickerSeries rows tk).length := by
    simpa [tickerSeries] using tickerRank_lt rows i tk v h
  show some (((shiftOpt lag (tickerSeries rows tk)).get?
    (tickerRank rows tk i)).getD none) = _
  rw [shiftOpt_get? _ lag _ hrank]
  rfl

/-- C7: the lagged sentiment at a row equals the row's own ticker's sentiment
`lag` positions earlier in that ticker's chronological order (null when no
such position exists), and the shift never crosses ticker boundaries: it is
determined by the ticker's own series and the row's rank within it. -/
theorem sentiment_lagged_per_ticker :
    (∀ (rows : List (String × Option ℚ)) (lag : ℤ) (i : Nat) (tk : String)
        (v : Option ℚ), rows.get? i = some (tk, v) →
      (groupShift lag rows).get? i =
        some (if 0 ≤ (tickerRank rows tk i : ℤ) - lag then
          ((tickerSeries rows tk).get?
            ((tickerRank rows tk i : ℤ) - lag).toNat).getD none
        else none)) ∧
    (∀ (rows rows' : List (String × Option ℚ)) (lag : ℤ) (i i' : Nat)
        (tk : String) (v v' : Option ℚ),
      rows.get? i = some (tk, v) → rows'.get? i' = some (tk, v') →
      tickerSeries rows tk = tickerSeries rows' tk →
      tickerRank rows tk i = tickerRank rows' tk i' →
      (groupShift lag rows).get? i = (groupShift lag rows').get? i') := by
  constructor
  · exact fun rows lag i tk v h => groupShift_get? rows lag i tk v h
  · intro rows rows' lag i i' tk v v' h h' hseries hrank
    rw [groupShift_get? rows lag i tk v h, groupShift_get? rows' lag i' tk v' h',
      hseries, hrank]

/-- Witness for C7: the per-row clause applied to the one-row table
`[("A", 0.25)]` with lag 0, evaluated: the lagged sentiment of row 0 is its
own sentiment. -/
theorem sentiment_lagged_per_ticker_witness :
    (groupShift 0 [("A", some (1/4 : ℚ))]).get? 0 = some (some (1/4 : ℚ)) := by
  have h := sentiment_lagged_per_ticker.1 [("A", some (1/4 : ℚ))] 0 0 "A"
    (some (1/4 : ℚ)) rfl
  simpa [tickerRank, tickerSeries] using h

/-! Sentiment decile bucketing
(pages/7_Sentiment_Research.py lines 112-118)

`view.groupby("ticker")["sentiment_lagged"].transform(lambda x: pd.qcut(x,
10, labels=False, duplicates="drop")) + 1` per ticker group.  `pd.qcut`
computes the 11 linearly interpolated quantile edges of the non-null values,
drops duplicate edges, and cuts the column against those edges with
right-closed bins and `include_lowest`; `labels=False` yields integer bin
codes (null for null inputs), and the page adds 1. -/

/-- Insertion step of the sort used to model the quantile computation. -/
def insertSorted (x : ℚ) : List ℚ → List ℚ
  | [] => [x]
  | y :: ys => if x ≤ y then x :: y :: ys else y :: insertSorted x ys

/-- Ascending sort of the non-null values (the order statistics the quantile
interpolation reads). -/
def sortQ : List ℚ → List ℚ
  | [] => []
  | x :: xs => insertSorted x (sortQ xs)

/-- Linearly interpolated quantile of a sorted sample `s` at probability `p`
(numpy's default interpolation, used by `Series.quantile`):
`h = (n-1)*p`, `i = ⌊h⌋`, result `s[i] + (h-i)*(s[i+1]-s[i])`. -/
def quantileAt (s : List ℚ) (p : ℚ) : ℚ :=
  let pos : ℚ := ((s.length : ℚ) - 1) * p
  let idx : Nat := (⌊pos⌋).toNat
  let a : ℚ := (s.get? idx).getD 0
  let b : ℚ := (s.get? (idx + 1)).getD a
  a + (pos - (idx : ℚ)) * (b - a)

/-- The 11 decile edges `vals.quantile(linspace(0, 1, 11))` of `qcut(x, 10)`. -/
def qcutEdges (vals : List ℚ) : List ℚ :=
  (List.range 11).map fun (j : Nat) => quantileAt (sortQ vals) ((j : ℚ) / 10)

/-- Embedding of `duplicates="drop"`: `np.unique` on the nondecreasing edge
array, i.e. consecutive deduplication. -/
def dedupConsec : List ℚ → List ℚ
  | [] => []
  | [x] => [x]
  | x :: y :: rest =>
    if x = y then dedupConsec (y :: rest) else x :: dedupConsec (y :: rest)

/-- Embedding of `np.searchsorted(edges, v, side="left")`: the first index
whose edge is `≥ v`. -/
def searchsortedLeft (edges : List ℚ) (v : ℚ) : Nat :=
  match edges with
  | [] => 0
  | e :: rest => if v ≤ e then 0 else searchsortedLeft rest v + 1

/-- Bin code assignment of `pandas._bins_to_cuts` with right-closed bins and
`include_lowest`: `ids = searchsorted(edges, v, "left")` with `ids = 1`
forced when `v` equals the lowest edge; codes run `0 .. len(edges) - 2`, and
out-of-range values get a null code. -/
def qcutCode (edges : List ℚ) (v : ℚ) : Option Nat :=
  let ids : Nat := if edges.head? = some v then 1 else searchsortedLeft edges v
  if 1 ≤ ids ∧ ids + 1 ≤ edges.length then some (ids - 1) else none

/-- The `sentiment_bucket_10` column for one ticker group: qcut codes of the
lagged sentiment against the group's deduplicated decile edges, plus 1. -/
def sentiment_bucket_10 (xs : List (Option ℚ)) : List (Option Nat) :=
  let edges := dedupConsec (qcutEdges (xs.filterMap id))
  xs.map fun o => o.bind fun v => (qcutCode edges v).map (· + 1)

theorem dedupConsec_length_le : ∀ l : List ℚ, (dedupConsec l).length ≤ l.length
  | [] => le_refl _
  | [_] => le_refl _
  | x :: y :: rest => by
    rw [dedupConsec]
    split
    · have := dedupConsec_length_le (y :: rest)
      simp only [List.length_cons] at this ⊢
      omega
    · have := dedupConsec_length_le (y :: rest)
      simp only [List.length_cons] at this ⊢
      omega

theorem qcutCode_lt (edges : List ℚ) (v : ℚ) (c : Nat)
    (h : qcutCode edges v = some c) : c + 2 ≤ edges.length := by
  rw [qcutCode] at h
  split at h
  all_goals split at h
  all_goals
    first
      | (rw [Option.some.injEq] at h; omega)
      | simp at h

/-- C9 counterexample: on the ten-value group `[1,1,2,3,4,5,6,7,8,9]` the two
exactly tied values at indices 0 and 1 both receive bucket 1 — the
earlier-dated observation does not receive a lower bucket than the later
tie. -/
theorem sentiment_bucket_ties_counterexample :
    sentiment_bucket_10
        [some 1, some 1, some 2, some 3, some 4, some 5, some 6, some 7,
         some 8, some 9] =
      [some 1, some 1, some 2, some 3, some 4, some 5, some 6, some 7,
       some 8, some 9] ∧
    (sentiment_bucket_10
        [some 1, some 1, some 2, some 3, some 4, some 5, some 6, some 7,
         some 8, some 9]).get? 0 = some (some 1) ∧
    (sentiment_bucket_10
        [some 1, some 1, some 2, some 3, some 4, some 5, some 6, some 7,
         some 8, some 9]).get? 1 = some (some 1) ∧
    ¬ (1 : Nat) < 1 := by
  have hvals : ([some 1, some 1, some 2, some 3, some 4, some 5, some 6,
      some 7, some 8, some 9] : List (Option ℚ)).filterMap id =
      [1, 1, 2, 3, 4, 5, 6, 7, 8, 9] := rfl
  have hsort : sortQ [1, 1, 2, 3, 4, 5, 6, 7, 8, 9] =
      [1, 1, 2, 3, 4, 5, 6, 7, 8, 9] := by
    norm_num [sortQ, insertSorted]
  have hedges : qcutEdges [1, 1, 2, 3, 4, 5, 6, 7, 8, 9] =
      [1, 1, 9/5, 27/10, 18/5, 9/2, 27/5, 63/10, 36/5, 81/10, 9] := by
    rw [qcutEdges, hsort]
    simp only [List.range_succ, List.map_append, List.map_cons, List.map_nil,
      List.range_zero, List.nil_append, List.cons_append]
    norm_num only [quantileAt, List.length_cons, List.length_nil]
    simp
    norm_num
  have hdedup : dedupConsec [1, 1, 9/5, 27/10, 18/5, 9/2, 27/5, 63/10, 36/5,
      81/10, 9] = [1, 9/5, 27/10, 18/5, 9/2, 27/5, 63/10, 36/5, 81/10, 9] := by
    norm_num [dedupConsec]
  have hmain : sentiment_bucket_10
      [some 1, some 1, some 2, some 3, some 4, some 5, some 6, some 7,
       some 8, some 9] =
      [some 1, some 1, some 2, some 3, some 4, some 5, some 6, some 7,
       some 8, some 9] := by
    rw [sentiment_bucket_10]
    rw [hvals, hedges, hdedup]
    norm_num [qcutCode, searchsortedLeft]
  refine ⟨hmain, ?_, ?_, by omega⟩
  · rw [hmain]; rfl
  · rw [hmain]; rfl

/-- C9 amended: per-ticker decile bucketing of the lagged sentiment is a
function of the value against the group's quantile edges, so every pair of
exactly tied observations receives the *same* bucket (there is no tie-break
by date order), and every bucket that is assigned lies in 1..10. -/
theorem sentiment_bucket_ties_same (xs : List (Option ℚ)) :
    (∀ (i j : Nat) (v : ℚ),
      xs.get? i = some (some v) → xs.get? j = some (some v) →
      (sentiment_bucket_10 xs).get? i = (sentiment_bucket_10 xs).get? j) ∧
    (∀ (t b : Nat), (sentiment_bucket_10 xs).get? t = some (some b) →
      1 ≤ b ∧ b ≤ 10) := by
  constructor
  · intro i j v hi hj
    rw [sentiment_bucket_10, List.get?_map, List.get?_map, hi, hj]
  · intro t b hb
    rw [sentiment_bucket_10, List.get?_map] at hb
    rcases hx : xs.get? t with _ | o
    · rw [hx] at hb; simp at hb
    · rw [hx] at hb
      simp only [Option.map_some', Option.some.injEq] at hb
      rcases o with _ | v
      · simp at hb
      · simp only [Option.some_bind] at hb
        rcases hc : qcutCode (dedupConsec (qcutEdges (xs.filterMap id))) v
          with _ | c
        · rw [hc] at hb; simp at hb
        · rw [hc] at hb
          simp only [Option.map_some', Option.some.injEq] at hb
          have h1 := qcutCode_lt _ v c hc
          have h2 := dedupConsec_length_le (qcutEdges (xs.filterMap id))
          have h3 : (qcutEdges (xs.filterMap id)).length = 11 := by
            rw [qcutEdges, List.length_map, List.length_range]
          omega

/-- Witness for C9's amended theorem: the tie clause applied to the concrete
tied pair at indices 0 and 1 of the counterexample group. -/
theorem sentiment_bucket_ties_same_witness :
    (sentiment_bucket_10 [some 1, some 1, some (2:ℚ)]).get? 0 =
      (sentiment_bucket_10 [some 1, some 1, some (2:ℚ)]).get? 1 :=
  (sentiment_bucket_ties_same [some 1, some 1, some (2:ℚ)]).1 0 1 1 rfl rfl

end Mag7
